import Mathlib

/-!
Verification of the deterministic source-text formatter (`formatting.ts`).

Lines are modelled as `List Char`; the whole document as a `List Char`
containing newline characters.  Every function below is a direct shallow
embedding of the corresponding TypeScript function; names follow the source.
JavaScript regex-based rewrites are modelled by explicit character-level
scanners reproducing the regex semantics (ordered alternation, greedy
whitespace, global leftmost scanning).  Scanning loops whose progress is not
structural use an explicit fuel argument initialised above the input length,
so that every definition is executable by kernel reduction.
-/

/-- Characters matched by the JavaScript `\s` class (on the fragments that can
occur in a line; lines contain no `\n` except when `braceStyle = break`
inserts one, which is also covered). -/
def isWs (c : Char) : Bool :=
  c = ' ' || c = '\t' || c = '\n' || c = '\r' || c = '\x0b' || c = '\x0c'

/-- Characters matched by the `[ \t]` class used for indentation handling. -/
def isSpTab (c : Char) : Bool := c = ' ' || c = '\t'

/-- A line is blank when it matches `/^\s*$/`. -/
def isBlank (l : List Char) : Bool := l.all isWs

/-- Trailing-whitespace trim, `line.replace(/[ \t]+$/g, "")`. -/
def trimSpTabEnd (l : List Char) : List Char :=
  (l.reverse.dropWhile isSpTab).reverse

/-- Leading `\s+` trim, `s.replace(/^\s+/, "")`. -/
def trimWsStart (l : List Char) : List Char := l.dropWhile isWs

/-- JavaScript `String.prototype.trim`. -/
def trimWsBoth (l : List Char) : List Char :=
  ((l.dropWhile isWs).reverse.dropWhile isWs).reverse

/-- `visualWidth` from the source: tab-aware column width. -/
def visualWidth (s : List Char) (tabSize : Nat) : Nat :=
  s.foldl (fun w c => if c = '\t' then w + (tabSize - w % tabSize) else w + 1) 0

/-! ## String/comment-aware scanner primitives -/

/-- `stripStrings`: remove quoted string literals (their delimiters included),
handling `\`-escapes; the state is `none` (code) or `some q` (inside a
`q`-quoted string). -/
def stripStringsGo : Option Char → List Char → List Char
  | _, [] => []
  | none, c :: r =>
    if c = '"' || c = '\'' then stripStringsGo (some c) r
    else c :: stripStringsGo none r
  | some q, c :: r =>
    if c = '\\' then
      match r with
      | [] => []
      | _ :: r2 => stripStringsGo (some q) r2
    else if c = q then stripStringsGo none r
    else stripStringsGo (some q) r

/-- `stripStrings` from the source. -/
def stripStrings (l : List Char) : List Char := stripStringsGo none l

/-- Locate the first `*/` in the input: returns the part before it and the
part after it (mirrors `line.indexOf("*/", i + 2)`). -/
def findClose : List Char → Option (List Char × List Char)
  | [] => none
  | '*' :: '/' :: r => some ([], r)
  | c :: r =>
    match findClose r with
    | some (a, b) => some (c :: a, b)
    | none => none

/-- `splitCodeAndComment` scanner: accumulates the code prefix (reversed) while
outside strings; on `//` returns the rest of the line as the comment; on a
closed `/* ... */` returns just that block as the comment (text after `*/` is
not part of either component, exactly as in the source). -/
def sccGo : Option Char → List Char → List Char → List Char × List Char
  | _, acc, [] => (acc.reverse, [])
  | none, acc, c :: r =>
    if c = '"' || c = '\'' then sccGo (some c) (c :: acc) r
    else if c = '/' then
      match r with
      | '/' :: _ => (acc.reverse, c :: r)
      | '*' :: r2 =>
        match findClose r2 with
        | some (inside, _) => (acc.reverse, '/' :: '*' :: (inside ++ ['*', '/']))
        | none => sccGo none (c :: acc) r
      | _ => sccGo none (c :: acc) r
    else sccGo none (c :: acc) r
  | some q, acc, c :: r =>
    if c = '\\' then
      match r with
      | [] => ((c :: acc).reverse, [])
      | c2 :: r2 => sccGo (some q) (c2 :: c :: acc) r2
    else if c = q then sccGo none (c :: acc) r
    else sccGo (some q) (c :: acc) r

/-- `splitCodeAndComment` from the source. -/
def splitCodeAndComment (l : List Char) : List Char × List Char :=
  sccGo none [] l

/-- `rewriteOutsideStrings` scanner.  Outside strings, maximal quote-free
chunks are accumulated (reversed) and passed through `f`; string segments are
re-emitted verbatim, with `\` consuming the following character. -/
def rwOutGo (f : List Char → List Char) : Option Char → List Char → List Char → List Char
  | none, acc, [] => if acc.isEmpty then [] else f acc.reverse
  | none, acc, c :: r =>
    if c = '"' || c = '\'' then
      (if acc.isEmpty then [] else f acc.reverse) ++ c :: rwOutGo f (some c) [] r
    else rwOutGo f none (c :: acc) r
  | some _, _, [] => []
  | some q, _, c :: r =>
    if c = '\\' then
      match r with
      | [] => [c]
      | c2 :: r2 => c :: c2 :: rwOutGo f (some q) [] r2
    else if c = q then c :: rwOutGo f none [] r
    else c :: rwOutGo f (some q) [] r

/-- `rewriteOutsideStrings` from the source. -/
def rewriteOutsideStrings (l : List Char) (f : List Char → List Char) : List Char :=
  rwOutGo f none [] l

/-- `rewriteStrings` scanner: outside strings characters are copied; a quote
starts collecting the literal content (reversed accumulator), `\` consuming
the following character; at the closing quote (or at end of line for an
unterminated literal) the callback rebuilds the literal.  A lone trailing
backslash is appended twice, exactly as the double `content += c` in the
source does. -/
def rwStrGo (f : List Char → Char → List Char) : Option (Char × List Char) → List Char → List Char
  | none, [] => []
  | none, c :: r =>
    if c = '"' || c = '\'' then rwStrGo f (some (c, [])) r
    else c :: rwStrGo f none r
  | some (q, acc), [] => f acc.reverse q
  | some (q, acc), c :: r =>
    if c = '\\' then
      match r with
      | [] => f (acc.reverse ++ ['\\', '\\']) q
      | c2 :: r2 => rwStrGo f (some (q, c2 :: '\\' :: acc)) r2
    else if c = q then f acc.reverse q ++ rwStrGo f none r
    else rwStrGo f (some (q, c :: acc)) r

/-- `rewriteStrings` from the source. -/
def rewriteStrings (l : List Char) (f : List Char → Char → List Char) : List Char :=
  rwStrGo f none l

/-! ## Regex replacement engines -/

/-- Try each operator in order as a prefix of the input (ordered regex
alternation); on success return the operator and the remaining input. -/
def tryOps : List (List Char) → List Char → Option (List Char × List Char)
  | [], _ => none
  | op :: ops, s =>
    if op.isPrefixOf s then some (op, s.drop op.length) else tryOps ops s

/-- Global replacement of `\s*(alt1|alt2|...)\s*` where the replacement is
`mk op`: at each position, greedy `\s*` then the ordered alternatives; on
failure the scan advances one character.  Fuel-driven; each successful match
consumes at least one character, so fuel `length + 1` suffices. -/
def gReplF (alts : List (List Char)) (mk : List Char → List Char) :
    Nat → List Char → List Char
  | 0, l => l
  | _, [] => []
  | fuel + 1, c :: rest =>
    match tryOps alts ((c :: rest).dropWhile isWs) with
    | some (op, r2) => mk op ++ gReplF alts mk fuel (r2.dropWhile isWs)
    | none => c :: gReplF alts mk fuel rest

/-- Entry point for `gReplF` with sufficient fuel. -/
def gRepl (alts : List (List Char)) (mk : List Char → List Char)
    (l : List Char) : List Char :=
  gReplF alts mk (l.length + 1) l

/-- Collapse runs of two or more spaces, `replace(/ {2,}/g, " ")`. -/
def collapse2 : List Char → List Char
  | [] => []
  | ' ' :: ' ' :: r => collapse2 (' ' :: r)
  | c :: r => c :: collapse2 r

/-- The ordered operator alternation of `ensureSpacesAroundOpsOutsideStrings`. -/
def opsStrings : List (List Char) :=
  ["+=", "-=", "*=", "/=", "%=", "<<=", ">>=", "&=", "^=", "|=",
   "===", "!==", "==", "!=", "<=", ">=", "&&", "||", "<<", ">>",
   "+", "-", "*", "/", "%", "<", ">", "=", "&", "|", "^"].map String.toList

/-- `ensureSpacesAroundOpsOutsideStrings` from the source. -/
def ensureSpacesAroundOpsOutsideStrings (l : List Char) : List Char :=
  rewriteOutsideStrings l fun chunk =>
    collapse2 (gRepl opsStrings (fun op => ' ' :: op ++ [' ']) chunk)

/-- Second comma rewrite, `replace(/, +([,\]\)}])/g, ",$1")`. -/
def commaTightenF : Nat → List Char → List Char
  | 0, l => l
  | _, [] => []
  | fuel + 1, c :: r =>
    if c = ',' then
      let r2 := r.dropWhile (fun x => x = ' ')
      if (r.takeWhile (fun x => x = ' ')).length ≥ 1 then
        match r2 with
        | c2 :: r3 =>
          if c2 = ',' || c2 = ']' || c2 = ')' || c2 = '}' then
            ',' :: c2 :: commaTightenF fuel r3
          else ',' :: commaTightenF fuel r
        | [] => ',' :: commaTightenF fuel r
      else ',' :: commaTightenF fuel r
    else c :: commaTightenF fuel r

/-- `ensureSpaceAfterCommasOutsideStrings` from the source. -/
def ensureSpaceAfterCommasOutsideStrings (l : List Char) : List Char :=
  rewriteOutsideStrings l fun chunk =>
    let c1 := gRepl [[',']] (fun op => op ++ [' ']) chunk
    commaTightenF (c1.length + 1) c1

/-- Colon spacing modes (`"none"` excluded at the call site). -/
inductive ColonMode | cnone | cleft | cright | cboth
deriving DecidableEq, Repr

/-- `ensureSpaceAroundColonOutsideStrings` from the source. -/
def ensureSpaceAroundColonOutsideStrings (l : List Char) (mode : ColonMode) :
    List Char :=
  rewriteOutsideStrings l fun chunk =>
    match mode with
    | ColonMode.cleft => gRepl [[':']] (fun op => ' ' :: op) chunk
    | ColonMode.cboth => gRepl [[':']] (fun op => ' ' :: op ++ [' ']) chunk
    | _ => gRepl [[':']] (fun op => op ++ [' ']) chunk

/-! ## Quote normalization -/

/-- Quote normalization targets. -/
inductive QuoteMode | preserve | double | single
deriving DecidableEq, Repr

/-- Escape of `"` characters, `content.replace(/"/g, "\\\"")`. -/
def escDq : List Char → List Char
  | [] => []
  | c :: r => if c = '"' then '\\' :: '"' :: escDq r else c :: escDq r

/-- Escape of single-quote characters (the second replace in the quote
conversion callback). -/
def escSq : List Char → List Char
  | [] => []
  | c :: r => if c = '\'' then '\\' :: '\'' :: escSq r else c :: escSq r

/-- The per-literal callback of `normalizeQuotesInLine`. -/
def quoteConv (target : QuoteMode) (content : List Char) (q : Char) : List Char :=
  if target = QuoteMode.double ∧ q = '\'' ∧ ¬ content.contains '"' then
    '"' :: escDq content ++ ['"']
  else if target = QuoteMode.single ∧ q = '"' ∧ ¬ content.contains '\'' then
    '\'' :: escSq content ++ ['\'']
  else q :: content ++ [q]

/-- `normalizeQuotesInLine` from the source. -/
def normalizeQuotesInLine (l : List Char) (target : QuoteMode) : List Char :=
  rewriteStrings l (quoteConv target)

/-! ## Brace / else style -/

/-- Brace placement styles. -/
inductive BraceStyle | attach | breakLine
deriving DecidableEq, Repr

/-- Does this suffix match `\s*\{\s*$`? -/
def isBraceTail (r : List Char) : Bool :=
  match r.dropWhile isWs with
  | '{' :: r2 => r2.all isWs
  | _ => false

/-- A single (first-match) replacement of `/\)\s*\{\s*$/` by `rep`. -/
def braceReplGo (rep : List Char) : List Char → List Char
  | [] => []
  | c :: r =>
    if c = ')' ∧ isBraceTail r then ')' :: rep
    else c :: braceReplGo rep r

/-- `applyBraceStyle` from the source. -/
def applyBraceStyle (l : List Char) (style : BraceStyle) : List Char :=
  match style with
  | BraceStyle.attach => braceReplGo [' ', '{'] l
  | BraceStyle.breakLine => braceReplGo ['\n', '{'] l

/-- JavaScript `\w` (word character) for the `\b` boundary after `else`. -/
def isWordChar (c : Char) : Bool := c.isAlphanum || c = '_'

/-- The boundary `\b` holds after `else` when the next character is not a word
character (or the line ends). -/
def elseBoundary (l : List Char) : Bool :=
  match l with
  | [] => true
  | c :: _ => !isWordChar c

/-- Does the line match `/^\s*else\b/`? -/
def startsWithElse (l : List Char) : Bool :=
  let r := l.dropWhile isWs
  "else".toList.isPrefixOf r && elseBoundary (r.drop 4)

/-- Is there a `/}\s*else\b/` match anywhere in the line? -/
def hasBraceElseF : Nat → List Char → Bool
  | 0, _ => false
  | _, [] => false
  | fuel + 1, c :: r =>
    if c = '}' then
      let r1 := r.dropWhile isWs
      if "else".toList.isPrefixOf r1 && elseBoundary (r1.drop 4) then true
      else hasBraceElseF fuel r
    else hasBraceElseF fuel r

/-- Global replacement of `/}\s*else\b/g` by `"}\nelse"`. -/
def braceElseReplF : Nat → List Char → List Char
  | 0, l => l
  | _, [] => []
  | fuel + 1, c :: r =>
    if c = '}' then
      let r1 := r.dropWhile isWs
      if "else".toList.isPrefixOf r1 && elseBoundary (r1.drop 4) then
        '}' :: '\n' :: ('e' :: 'l' :: 's' :: 'e' :: braceElseReplF fuel (r1.drop 4))
      else '}' :: braceElseReplF fuel r
    else c :: braceElseReplF fuel r

/-- `applyNewlineBeforeElse` from the source (its accumulator parameter is
unused there). -/
def applyNewlineBeforeElse (l : List Char) : List Char :=
  if ¬ startsWithElse l ∧ hasBraceElseF (l.length + 1) l then
    braceElseReplF (l.length + 1) l
  else l

/-! ## Indentation -/

/-- `normalizeIndent` from the source (its `indentUnit` parameter is unused
there). -/
def normalizeIndent (line : List Char) (tabSize : Nat) (useSpaces : Bool) :
    List Char :=
  let lead := line.takeWhile isSpTab
  let body := line.dropWhile isSpTab
  if useSpaces then
    (lead.flatMap fun c => if c = '\t' then List.replicate tabSize ' ' else [c]) ++ body
  else
    let width := visualWidth lead tabSize
    List.replicate (width / tabSize) '\t' ++ List.replicate (width % tabSize) ' ' ++ body

/-- `applyIndentHeuristic` from the source. -/
def applyIndentHeuristic (line : List Char) (level : Int) (indentUnit : List Char) :
    List Char :=
  (List.replicate (max 0 level).toNat indentUnit).flatten ++ line.dropWhile isSpTab

/-- `netBracketDelta` from the source: signed opening-minus-closing bracket
count over the string-stripped line. -/
def netBracketDelta (l : List Char) : Int :=
  let s := stripStrings l
  (s.countP (fun c => c = '{' || c = '[' || c = '(') : Int)
    - (s.countP (fun c => c = '}' || c = ']' || c = ')') : Int)

/-- `startsWithClosingBracket` from the source. -/
def startsWithClosingBracket (l : List Char) : Bool :=
  match l.dropWhile isSpTab with
  | c :: _ => c = '}' || c = ']' || c = ')'
  | [] => false

/-! ## Options -/

/-- End-of-line conventions. -/
inductive EOLMode | lf | crlf
deriving DecidableEq, Repr

/-- `ExtraFormattingOptions`: every field is optional exactly as in the
TypeScript interface; `none` models an absent (`undefined`) field. -/
structure ExtraFormattingOptions where
  tabSize : Option Nat := none
  insertSpaces : Option Bool := none
  trimTrailingWhitespace : Option Bool := none
  insertFinalNewline : Option Bool := none
  trimFinalNewlines : Option Bool := none
  normalizeEOL : Option EOLMode := none
  maxConsecutiveBlankLines : Option Nat := none
  ensureSpaceAroundOperators : Option Bool := none
  spaceAfterComma : Option Bool := none
  spaceAroundColon : Option ColonMode := none
  normalizeQuotes : Option QuoteMode := none
  keepIndentInsideStrings : Option Bool := none
  alignInlineComments : Option Bool := none
  alignEquals : Option Bool := none
  braceStyle : Option BraceStyle := none
  newlineBeforeElse : Option Bool := none
  wrapCommentsAt : Option Nat := none
deriving DecidableEq, Repr

/-- The default options object supplied when `provideFormattingEdits` is
called without an options argument. -/
def defaultOptions : ExtraFormattingOptions where
  tabSize := some 2
  insertSpaces := some true
  trimTrailingWhitespace := some true
  insertFinalNewline := some true
  trimFinalNewlines := some true
  normalizeEOL := some EOLMode.lf
  maxConsecutiveBlankLines := some 2
  ensureSpaceAroundOperators := some true
  spaceAfterComma := some true
  spaceAroundColon := some ColonMode.cright
  normalizeQuotes := some QuoteMode.preserve
  keepIndentInsideStrings := some true
  alignInlineComments := some true
  alignEquals := some true
  braceStyle := some BraceStyle.attach
  newlineBeforeElse := some false
  wrapCommentsAt := some 100

/-- The indent unit derived in `formatLines`. -/
def indentUnitOf (opt : ExtraFormattingOptions) : List Char :=
  if opt.insertSpaces.getD true then List.replicate (opt.tabSize.getD 2) ' '
  else ['\t']

/-! ## Pass 1: indentation and spacing -/

/-- Pre-decrement flag: `1` iff the line starts (after leading whitespace)
with a closing bracket. -/
def preDecOf (raw : List Char) : Int :=
  if startsWithClosingBracket raw then 1 else 0

/-- Everything `passIndentAndSpacing` does to one line after the indentation
has been applied: quote normalization, operator/comma/colon spacing, brace
style, else placement, trailing-whitespace trim — each behind its option
gate, mirroring JavaScript truthiness for absent fields. -/
def postIndentPasses (opt : ExtraFormattingOptions) (line0 : List Char) : List Char :=
  let line1 :=
    match opt.normalizeQuotes with
    | some q => if q ≠ QuoteMode.preserve then normalizeQuotesInLine line0 q else line0
    | none => line0
  let line2 :=
    if opt.ensureSpaceAroundOperators = some true then
      ensureSpacesAroundOpsOutsideStrings line1
    else line1
  let line3 :=
    if opt.spaceAfterComma = some true then
      ensureSpaceAfterCommasOutsideStrings line2
    else line2
  let line4 :=
    match opt.spaceAroundColon with
    | some m => if m ≠ ColonMode.cnone then ensureSpaceAroundColonOutsideStrings line3 m else line3
    | none => line3
  let line5 := applyBraceStyle line4 (opt.braceStyle.getD BraceStyle.attach)
  let line6 :=
    if opt.newlineBeforeElse = some true then applyNewlineBeforeElse line5 else line5
  if opt.trimTrailingWhitespace.getD true then trimSpTabEnd line6 else line6

/-- One full iteration of the `passIndentAndSpacing` loop body on a raw line,
given the running (unclamped) indent level. -/
def processLine (opt : ExtraFormattingOptions) (lvl : Int) (raw0 : List Char) :
    List Char :=
  let raw := normalizeIndent raw0 (opt.tabSize.getD 2) (opt.insertSpaces.getD true)
  postIndentPasses opt
    (applyIndentHeuristic raw (max 0 (lvl - preDecOf raw)) (indentUnitOf opt))

/-- The bracket delta contributed by a raw line (computed, as in the source,
on the indent-normalized line before the other rewrites). -/
def lineDelta (opt : ExtraFormattingOptions) (raw0 : List Char) : Int :=
  netBracketDelta (normalizeIndent raw0 (opt.tabSize.getD 2) (opt.insertSpaces.getD true))

/-- The `passIndentAndSpacing` loop, threading the running indent level. -/
def passGo (opt : ExtraFormattingOptions) : Int → List (List Char) → List (List Char)
  | _, [] => []
  | lvl, r :: rs => processLine opt lvl r :: passGo opt (lvl + lineDelta opt r) rs

/-- `passIndentAndSpacing` from the source. -/
def passIndentAndSpacing (src : List (List Char)) (opt : ExtraFormattingOptions) :
    List (List Char) :=
  passGo opt 0 src

/-- The sequence of indent-level values the loop holds before each line,
starting from `lvl`; the counter is an unclamped integer. -/
def levelsFrom (opt : ExtraFormattingOptions) : Int → List (List Char) → List Int
  | _, [] => []
  | lvl, r :: rs => lvl :: levelsFrom opt (lvl + lineDelta opt r) rs

/-! ## Pass 2: blank-run limiting -/

/-- The `limitBlankRuns` loop with its running blank counter. -/
def lbrGo (maxBlank : Nat) : Nat → List (List Char) → List (List Char)
  | _, [] => []
  | run, l :: r =>
    if isBlank l then
      if run + 1 ≤ maxBlank then [] :: lbrGo maxBlank (run + 1) r
      else lbrGo maxBlank (run + 1) r
    else l :: lbrGo maxBlank 0 r

/-- `limitBlankRuns` from the source. -/
def limitBlankRuns (lines : List (List Char)) (maxBlank : Nat) : List (List Char) :=
  lbrGo maxBlank 0 lines

/-! ## Pass 3: end-of-line comment alignment -/

/-- Maximum trimmed-code character length over all lines carrying a trailing
comment (the `maxCode` accumulator of `alignEndOfLineComments`). -/
def maxCodeLen (lines : List (List Char)) : Nat :=
  lines.foldl
    (fun m l =>
      let p := splitCodeAndComment l
      if p.2 ≠ [] then max m (trimSpTabEnd p.1).length else m)
    0

/-- `alignEndOfLineComments` from the source: pad the trimmed code of every
comment-carrying line to a document-global column before the comment. -/
def alignEndOfLineComments (lines : List (List Char)) : List (List Char) :=
  if lines.all (fun l => (splitCodeAndComment l).2 = []) then lines
  else
    let mc := maxCodeLen lines
    lines.map fun l =>
      let p := splitCodeAndComment l
      if p.2 = [] then l
      else
        let code := trimSpTabEnd p.1
        code ++ List.replicate (max 1 (mc - code.length + 1)) ' ' ++ p.2

/-! ## Pass 4: equals alignment -/

/-- Does this line qualify for `=` alignment
(`sc.includes("=") && !/^\s*\/\//.test(sc)` on the string-stripped line)? -/
def qualEq (l : List Char) : Bool :=
  let sc := stripStrings l
  sc.contains '=' &&
    !(match sc.dropWhile isWs with
      | '/' :: '/' :: _ => true
      | _ => false)

/-- The part of a line before its first `=` (`line.split("=")[0]`). -/
def beforeEq (l : List Char) : List Char := l.takeWhile (fun c => c ≠ '=')

/-- The part of a line after its first `=` (`parts.join("=")` after a
shift). -/
def afterEq (l : List Char) : List Char := (l.dropWhile (fun c => c ≠ '=')).drop 1

/-- Rewriting of one qualifying block of at least two lines: compute the
common column from the raw left parts (tab width 2, as hard-coded in the
source) and re-emit each line as trimmed-left, padding, `" = "`, trimmed
right. -/
def alignBlock (block : List (List Char)) : List (List Char) :=
  let col := block.foldl (fun m l => max m (visualWidth (beforeEq l) 2)) 0
  block.map fun l =>
    trimSpTabEnd (beforeEq l)
      ++ List.replicate (max 1 (col - visualWidth (beforeEq l) 2)) ' '
      ++ ' ' :: '=' :: ' ' :: trimWsStart (afterEq l)

/-- The `alignEqualsBlocks` outer loop.  Leading non-qualifying non-blank
lines are skipped, a maximal run of qualifying lines forms the block, and the
line that terminated the scan (blank or non-qualifying) is consumed as-is by
the outer `i++`.  Fuel-driven; every iteration consumes at least one line. -/
def aeGoF : Nat → List (List Char) → List (List Char)
  | 0, ls => ls
  | _, [] => []
  | fuel + 1, ls =>
    let pre := ls.takeWhile fun l => !isBlank l && !qualEq l
    match ls.dropWhile (fun l => !isBlank l && !qualEq l) with
    | [] => pre
    | l :: rest =>
      if isBlank l then pre ++ l :: aeGoF fuel rest
      else
        let block := (l :: rest).takeWhile qualEq
        let aligned := if block.length ≥ 2 then alignBlock block else block
        match (l :: rest).dropWhile qualEq with
        | [] => pre ++ aligned
        | b :: rest2 => pre ++ aligned ++ b :: aeGoF fuel rest2

/-- `alignEqualsBlocks` from the source. -/
def alignEqualsBlocks (lines : List (List Char)) : List (List Char) :=
  aeGoF (lines.length + 1) lines

/-! ## Pass 5: comment wrapping -/

/-- Match `/^(\s*\/\/\s?)(.*)$/`: on success return the captured prefix and
the remainder of the line. -/
def wclMatch (l : List Char) : Option (List Char × List Char) :=
  let ws := l.takeWhile isWs
  match l.dropWhile isWs with
  | '/' :: '/' :: r2 =>
    match r2 with
    | c :: r3 =>
      if isWs c then some (ws ++ ['/', '/', c], r3)
      else some (ws ++ ['/', '/'], r2)
    | [] => some (ws ++ ['/', '/'], [])
  | _ => none

/-- JavaScript `s.split(/\s+/)` on a trimmed string (the empty string yields
`[""]`, as in JavaScript). -/
def splitWsF : Nat → List Char → List (List Char)
  | 0, s => [s]
  | _, [] => []
  | fuel + 1, s =>
    s.takeWhile (fun c => !isWs c)
      :: splitWsF fuel ((s.dropWhile fun c => !isWs c).dropWhile isWs)

/-- Entry point for the word split. -/
def splitWsJS (s : List Char) : List (List Char) :=
  if s.isEmpty then [[]] else splitWsF (s.length + 1) s

/-- The greedy packing loop of `wrapText`. -/
def packWords (width : Int) : List Char → List (List Char) → List (List Char)
  | cur, [] => if cur.length ≠ 0 then [cur] else []
  | cur, w :: ws =>
    if cur.length = 0 then packWords width w ws
    else if (cur.length + 1 + w.length : Int) ≤ width then
      packWords width (cur ++ ' ' :: w) ws
    else cur :: packWords width w ws

/-- `wrapText` from the source. -/
def wrapText (s : List Char) (width : Int) : List (List Char) :=
  if (s.length : Int) ≤ width then [s]
  else packWords width [] (splitWsJS s)

/-- `wrapCommentLines` from the source: whole-line `//` comments are word
wrapped, every other line is kept; a wrapped line is replaced by the wrapped
pieces (possibly changing the line count). -/
def wrapCommentLines (lines : List (List Char)) (maxW : Nat) : List (List Char) :=
  lines.flatMap fun l =>
    match wclMatch l with
    | none => [l]
    | some (pre, rest) =>
      (wrapText (trimWsBoth rest) ((maxW : Int) - (visualWidth pre 2 : Int))).map
        fun w => pre ++ w

/-! ## Line model and entry points -/

/-- `text.replace(/\r\n/g, "\n")`. -/
def stripCRLF : List Char → List Char
  | [] => []
  | '\r' :: '\n' :: r => '\n' :: stripCRLF r
  | c :: r => c :: stripCRLF r

/-- Split on `\n` (the result always has one more element than the number of
newline characters). -/
def splitOnNl : List Char → List (List Char)
  | [] => [[]]
  | '\n' :: r => [] :: splitOnNl r
  | c :: r =>
    match splitOnNl r with
    | h :: t => (c :: h) :: t
    | [] => [[c]]

/-- `splitLines` from the source. -/
def splitLines (t : List Char) : List (List Char) := splitOnNl (stripCRLF t)

/-- `joinWithEOL` from the source. -/
def joinWithEOL (lines : List (List Char)) (mode : EOLMode) : List Char :=
  let lf := List.intercalate ['\n'] lines
  match mode with
  | EOLMode.lf => lf
  | EOLMode.crlf => lf.flatMap fun c => if c = '\n' then ['\r', '\n'] else [c]

/-- `text.replace(/\n+$/g, "\n")`: collapse a trailing newline run to one. -/
def trimFinalNl (t : List Char) : List Char :=
  if t.getLast? = some '\n' then (t.reverse.dropWhile (fun c => c = '\n')).reverse ++ ['\n']
  else t

/-- `formatLines` from the source: the five passes behind their option gates
(absent options are falsy, mirroring the JavaScript truthiness tests). -/
def formatLines (src : List (List Char)) (opt : ExtraFormattingOptions) :
    List (List Char) :=
  let l1 := passIndentAndSpacing src opt
  let l2 := limitBlankRuns l1 (opt.maxConsecutiveBlankLines.getD 2)
  let l3 := if opt.alignInlineComments = some true then alignEndOfLineComments l2 else l2
  let l4 := if opt.alignEquals = some true then alignEqualsBlocks l3 else l3
  match opt.wrapCommentsAt with
  | some w => if 10 < w then wrapCommentLines l4 w else l4
  | none => l4

/-- The fully formatted text of `provideFormattingEdits`: pipeline output
joined under the target EOL convention, then final-newline trimming, then
final-newline insertion. -/
def formattedText (opt : ExtraFormattingOptions) (original : List Char) : List Char :=
  let t1 := joinWithEOL (formatLines (splitLines original) opt) (opt.normalizeEOL.getD EOLMode.lf)
  let t2 := if opt.trimFinalNewlines = some true then trimFinalNl t1 else t1
  if opt.insertFinalNewline = some true ∧ t2.getLast? ≠ some '\n' then t2 ++ ['\n']
  else t2

/-- The original text split and rejoined under the target EOL convention
(the `normalizedOrig` comparison value). -/
def normalizedOriginal (opt : ExtraFormattingOptions) (original : List Char) : List Char :=
  joinWithEOL (splitLines original) (opt.normalizeEOL.getD EOLMode.lf)

/-- `provideFormattingEdits` from the source.  An absent options argument
(`none`) selects the whole default object.  The result models the edit list:
empty, or a single whole-document replacement carrying the final text. -/
def provideFormattingEdits (optsArg : Option ExtraFormattingOptions)
    (original : List Char) : List (List Char) :=
  let o := optsArg.getD defaultOptions
  if normalizedOriginal o original = formattedText o original then []
  else [formattedText o original]

/-! ## Supporting definitions for the claims -/

/-- A line fragment containing no quote character. -/
def noQuotes (l : List Char) : Bool := l.all fun c => c ≠ '"' && c ≠ '\''

/-- The scanner of `rewriteStrings` consumes exactly this content and then
sees the closing quote: no unescaped occurrence of `q` or dangling final
backslash. -/
def okContent (q : Char) : List Char → Bool
  | [] => true
  | c :: cs =>
    if c = '\\' then
      match cs with
      | [] => false
      | _ :: cs2 => okContent q cs2
    else decide (c ≠ q) && okContent q cs

/-- Naive substring test over character lists. -/
def isSubstring (p : List Char) : List Char → Bool
  | [] => p.isEmpty
  | c :: r => p.isPrefixOf (c :: r) || isSubstring p r

/-- Bounded blank-run check: every maximal run of consecutive blank lines has
length at most `m` (tracked by a running counter, like the limiter itself). -/
def runsLeGo (m : Nat) : Nat → List (List Char) → Bool
  | _, [] => true
  | k, l :: r =>
    if isBlank l then decide (k + 1 ≤ m) && runsLeGo m (k + 1) r
    else runsLeGo m 0 r

/-- Entry point for the blank-run bound. -/
def runsLe (m : Nat) (ls : List (List Char)) : Bool := runsLeGo m 0 ls

/-- An options value carrying only `tabSize` and `insertSpaces`. -/
def minimalOptions : ExtraFormattingOptions where
  tabSize := some 2
  insertSpaces := some true

/-- The explicit behaviour observed for `minimalOptions`: only the per-field
defaulted options are active; every truthily-read option is off. -/
def minimalEquivalent : ExtraFormattingOptions where
  tabSize := some 2
  insertSpaces := some true
  trimTrailingWhitespace := some true
  insertFinalNewline := some false
  trimFinalNewlines := some false
  normalizeEOL := some EOLMode.lf
  maxConsecutiveBlankLines := some 2
  ensureSpaceAroundOperators := some false
  spaceAfterComma := some false
  spaceAroundColon := some ColonMode.cnone
  normalizeQuotes := some QuoteMode.preserve
  alignInlineComments := some false
  alignEquals := some false
  braceStyle := some BraceStyle.attach
  newlineBeforeElse := some false
  wrapCommentsAt := some 0

/-! ## Helper lemmas -/

theorem escDq_of_not_contains : ∀ l : List Char, l.contains '"' = false → escDq l = l := by
  intro l
  induction l with
  | nil => intro _; rfl
  | cons c r ih =>
    intro h
    simp only [List.contains_cons, Bool.or_eq_false_iff] at h
    have hc : ¬ c = '"' := by
      intro he; subst he; simp at h
    simp [escDq, hc, ih h.2]

theorem escSq_of_not_contains : ∀ l : List Char, l.contains '\'' = false → escSq l = l := by
  intro l
  induction l with
  | nil => intro _; rfl
  | cons c r ih =>
    intro h
    simp only [List.contains_cons, Bool.or_eq_false_iff] at h
    have hc : ¬ c = '\'' := by
      intro he; subst he; simp at h
    simp [escSq, hc, ih h.2]

theorem rwStrGo_none_of_noQuotes (f : List Char → Char → List Char) :
    ∀ l : List Char, noQuotes l = true → rwStrGo f none l = l := by
  intro l
  induction l with
  | nil => intro _; rfl
  | cons c r ih =>
    intro h
    simp only [noQuotes, List.all_cons, Bool.and_eq_true] at h
    have hc : (c = '"' || c = '\'') = false := by
      rcases h.1 with h1
      simp only [Bool.and_eq_true, decide_eq_true_eq] at h1
      simp [h1.1, h1.2]
    have hr : noQuotes r = true := h.2
    simp [rwStrGo, hc, ih hr]

theorem rwStrGo_esc_pair (f : List Char → Char → List Char) (q c2 : Char)
    (acc r2 : List Char) :
    rwStrGo f (some (q, acc)) ('\\' :: c2 :: r2)
      = rwStrGo f (some (q, c2 :: '\\' :: acc)) r2 := by
  rfl

theorem rwStrGo_close (f : List Char → Char → List Char) (q c : Char)
    (acc r : List Char) (hb : ¬ c = '\\') (hcq : c = q) :
    rwStrGo f (some (q, acc)) (c :: r) = f acc.reverse q ++ rwStrGo f none r := by
  subst hcq
  conv_lhs => rw [rwStrGo.eq_def]
  simp only [hb, if_false]
  simp

theorem rwStrGo_keep (f : List Char → Char → List Char) (q c : Char)
    (acc r : List Char) (hb : ¬ c = '\\') (hcq : ¬ c = q) :
    rwStrGo f (some (q, acc)) (c :: r) = rwStrGo f (some (q, c :: acc)) r := by
  conv_lhs => rw [rwStrGo.eq_def]
  simp only [hb, hcq, if_false]

theorem rwStrGo_enter (f : List Char → Char → List Char) (c : Char)
    (r : List Char) (h : (c = '"' || c = '\'') = true) :
    rwStrGo f none (c :: r) = rwStrGo f (some (c, [])) r := by
  conv_lhs => rw [rwStrGo.eq_def]
  simp only [h, if_true]

theorem okContent_cons (q c : Char) (cs : List Char) :
    okContent q (c :: cs) =
      if c = '\\' then
        (match cs with
         | [] => false
         | _ :: cs2 => okContent q cs2)
      else decide (c ≠ q) && okContent q cs := by
  conv_lhs => rw [okContent.eq_def]

theorem rwStrGo_closes (f : List Char → Char → List Char) (q : Char)
    (hq : q = '"' ∨ q = '\'') :
    ∀ n content, content.length ≤ n → okContent q content = true →
      ∀ acc rest,
        rwStrGo f (some (q, acc)) (content ++ q :: rest)
          = f (acc.reverse ++ content) q ++ rwStrGo f none rest := by
  have hqb : ¬ q = '\\' := by
    rcases hq with h | h <;> subst h <;> decide
  intro n
  induction n with
  | zero =>
    intro content hlen _ acc rest
    have hc : content = [] := List.length_eq_zero.mp (Nat.le_zero.mp hlen)
    subst hc
    rw [List.nil_append, rwStrGo_close f q q acc rest hqb rfl, List.append_nil]
  | succ n ih =>
    intro content hlen hok acc rest
    cases content with
    | nil =>
      rw [List.nil_append, rwStrGo_close f q q acc rest hqb rfl, List.append_nil]
    | cons c cs =>
      by_cases hb : c = '\\'
      · subst hb
        cases cs with
        | nil => simp [okContent] at hok
        | cons c2 cs2 =>
          have hok2 : okContent q cs2 = true := by
            rw [okContent_cons, if_pos rfl] at hok
            exact hok
          have hlen2 : cs2.length ≤ n := by
            simp only [List.length_cons] at hlen
            omega
          rw [List.cons_append, List.cons_append, rwStrGo_esc_pair,
            ih cs2 hlen2 hok2 (c2 :: '\\' :: acc) rest]
          simp
      · rw [okContent_cons, if_neg hb, Bool.and_eq_true, decide_eq_true_eq] at hok
        have hlen2 : cs.length ≤ n := by
          simp only [List.length_cons] at hlen
          omega
        rw [List.cons_append, rwStrGo_keep f q c acc _ hb hok.1,
          ih cs hlen2 hok.2 (c :: acc) rest]
        simp

theorem normalizeQuotes_literal (target : QuoteMode) (q : Char)
    (hq : q = '"' ∨ q = '\'') (content rest : List Char)
    (hok : okContent q content = true) (hrest : noQuotes rest = true) :
    normalizeQuotesInLine (q :: content ++ q :: rest) target
      = quoteConv target content q ++ rest := by
  have hqt : (q = '"' || q = '\'') = true := by
    rcases hq with h | h <;> subst h <;> decide
  show rwStrGo (quoteConv target) none (q :: (content ++ q :: rest)) = _
  rw [rwStrGo_enter (quoteConv target) q _ hqt,
    rwStrGo_closes (quoteConv target) q hq content.length content le_rfl hok [] rest,
    rwStrGo_none_of_noQuotes _ rest hrest]
  simp

theorem passGo_eq_zipWith (opt : ExtraFormattingOptions) :
    ∀ (src : List (List Char)) (lvl : Int),
      passGo opt lvl src = List.zipWith (processLine opt) (levelsFrom opt lvl src) src := by
  intro src
  induction src with
  | nil => intro lvl; rfl
  | cons r rs ih =>
    intro lvl
    simp [passGo, levelsFrom, List.zipWith, ih]

theorem lbrGo_cons (m run : Nat) (l : List Char) (r : List (List Char)) :
    lbrGo m run (l :: r) =
      if isBlank l then
        (if run + 1 ≤ m then [] :: lbrGo m (run + 1) r else lbrGo m (run + 1) r)
      else l :: lbrGo m 0 r := by
  rfl

theorem runsLeGo_cons (m k : Nat) (l : List Char) (r : List (List Char)) :
    runsLeGo m k (l :: r) =
      if isBlank l then decide (k + 1 ≤ m) && runsLeGo m (k + 1) r
      else runsLeGo m 0 r := by
  rfl

theorem isBlank_nil : isBlank ([] : List Char) = true := by
  rfl

theorem lbrGo_runsLe (m : Nat) :
    ∀ (ls : List (List Char)) (run k : Nat), k ≤ run →
      runsLeGo m k (lbrGo m run ls) = true := by
  intro ls
  induction ls with
  | nil => intro run k _; rfl
  | cons l r ih =>
    intro run k hk
    rw [lbrGo_cons]
    by_cases hb : isBlank l
    · rw [if_pos hb]
      by_cases hle : run + 1 ≤ m
      · rw [if_pos hle, runsLeGo_cons, if_pos isBlank_nil, Bool.and_eq_true]
        exact ⟨decide_eq_true (le_trans (Nat.succ_le_succ hk) hle),
          ih (run + 1) (k + 1) (Nat.succ_le_succ hk)⟩
      · rw [if_neg hle]
        exact ih (run + 1) k (le_trans hk (Nat.le_succ run))
    · rw [if_neg hb, runsLeGo_cons, if_neg hb]
      exact ih 0 0 le_rfl

theorem lbrGo_filter (m : Nat) :
    ∀ (ls : List (List Char)) (run : Nat),
      (lbrGo m run ls).filter (fun l => !isBlank l)
        = ls.filter (fun l => !isBlank l) := by
  intro ls
  induction ls with
  | nil => intro run; rfl
  | cons l r ih =>
    intro run
    rw [lbrGo_cons]
    by_cases hb : isBlank l
    · have hfl : (fun l : List Char => !isBlank l) l = false := by
        simp [hb]
      by_cases hle : run + 1 ≤ m
      · rw [if_pos hb, if_pos hle, List.filter_cons, List.filter_cons]
        simp only [isBlank_nil, Bool.not_true, hfl]
        simp only [Bool.false_eq_true, if_false]
        exact ih (run + 1)
      · rw [if_pos hb, if_neg hle, List.filter_cons]
        simp only [hfl, Bool.false_eq_true, if_false]
        exact ih (run + 1)
    · have hfl : (fun l : List Char => !isBlank l) l = true := by
        simp [hb]
      rw [if_neg hb, List.filter_cons, List.filter_cons]
      simp only [hfl, if_true]
      rw [ih 0]

theorem lbrGo_blank_nil (m : Nat) :
    ∀ (ls : List (List Char)) (run : Nat) (l : List Char),
      l ∈ lbrGo m run ls → isBlank l = true → l = [] := by
  intro ls
  induction ls with
  | nil => intro run l hmem _; simp [lbrGo] at hmem
  | cons x r ih =>
    intro run l hmem hbl
    rw [lbrGo_cons] at hmem
    by_cases hb : isBlank x
    · rw [if_pos hb] at hmem
      by_cases hle : run + 1 ≤ m
      · rw [if_pos hle, List.mem_cons] at hmem
        cases hmem with
        | inl h => exact h
        | inr h => exact ih (run + 1) l h hbl
      · rw [if_neg hle] at hmem
        exact ih (run + 1) l hmem hbl
    · rw [if_neg hb, List.mem_cons] at hmem
      cases hmem with
      | inl h => subst h; rw [hbl] at hb; exact absurd rfl hb
      | inr h => exact ih 0 l h hbl

theorem passGo_minEq :
    ∀ (ls : List (List Char)) (lvl : Int),
      passGo minimalOptions lvl ls = passGo minimalEquivalent lvl ls := by
  intro ls
  induction ls with
  | nil => intro lvl; rfl
  | cons r rs ih =>
    intro lvl
    show processLine minimalOptions lvl r
        :: passGo minimalOptions (lvl + lineDelta minimalOptions r) rs
      = processLine minimalEquivalent lvl r
        :: passGo minimalEquivalent (lvl + lineDelta minimalEquivalent r) rs
    rw [show processLine minimalOptions lvl r = processLine minimalEquivalent lvl r from rfl,
      show lineDelta minimalOptions r = lineDelta minimalEquivalent r from rfl, ih]

theorem formatLines_minEq (ls : List (List Char)) :
    formatLines ls minimalOptions = formatLines ls minimalEquivalent := by
  show limitBlankRuns (passGo minimalOptions 0 ls) 2
      = limitBlankRuns (passGo minimalEquivalent 0 ls) 2
  rw [passGo_minEq ls 0]

theorem formattedText_minEq (t : List Char) :
    formattedText minimalOptions t = formattedText minimalEquivalent t := by
  show joinWithEOL (formatLines (splitLines t) minimalOptions) EOLMode.lf
      = joinWithEOL (formatLines (splitLines t) minimalEquivalent) EOLMode.lf
  rw [formatLines_minEq]

/-! ## Claims -/

/-- C1 counterexample: formatting is not idempotent.  On the document
`a("x=y") = 1` / `bb = 2` with the default options, the equals-alignment pass
pads inside the string literal; on the second run that padding widens the
measured left column, so the second run changes `bb  = 2` into `bb    = 2`
and reports a further edit instead of none. -/
theorem claim_C1_counterexample :
    formattedText defaultOptions
        (formattedText defaultOptions "a(\"x=y\") = 1\nbb = 2".toList)
      ≠ formattedText defaultOptions "a(\"x=y\") = 1\nbb = 2".toList
    ∧ provideFormattingEdits none
        (formattedText defaultOptions "a(\"x=y\") = 1\nbb = 2".toList) ≠ [] := by
  constructor
  · decide
  · decide

/-- C1 (amended): formatting is not idempotent for every input: with
`alignEquals` enabled, a line whose first `=` lies inside a string literal
receives alignment padding inside the literal, which widens the left column
measured by the next run, so the second run can produce different text and a
further edit.  On the witness document the iteration stabilizes from the
second run on: a third run reproduces the output of the second run exactly. -/
theorem claim_C1 :
    formattedText defaultOptions
        (formattedText defaultOptions
          (formattedText defaultOptions "a(\"x=y\") = 1\nbb = 2".toList))
      = formattedText defaultOptions
          (formattedText defaultOptions "a(\"x=y\") = 1\nbb = 2".toList) := by
  decide

/-- C2 counterexample: string-literal contents are not always preserved
through the equals-alignment pass.  In `a("b =c") = 1` / `dd = 2` (default
options) the first `=` of the first line lies inside the literal `"b =c"`;
alignment trims and pads there, so the literal `"b =c"` no longer occurs in
the output (it becomes `"b  = c"`). -/
theorem claim_C2_counterexample :
    isSubstring "\"b =c\"".toList
        (formattedText defaultOptions "a(\"b =c\") = 1\ndd = 2".toList) = false := by
  decide

/-- C2 (amended): the spacing sub-passes route through
`rewriteOutsideStrings` and leave string contents alone — the example
`let s = "a,b:c\x7bd\x7d"` with comma/colon spacing enabled is reported as
needing no edit at all — but the preservation does not extend to the
equals-alignment pass when the first `=` of a line lies inside a string literal:
there the pass rewrites whitespace inside the literal, as the second
conjunct shows explicitly. -/
theorem claim_C2 :
    provideFormattingEdits none "let s = \"a,b:c\x7bd\x7d\"\n".toList = []
    ∧ formattedText defaultOptions "a(\"b =c\") = 1\ndd = 2".toList
        = "a(\"b  = c\") = 1\ndd   = 2\n".toList := by
  constructor
  · decide
  · decide

/-- C3 counterexample: trailing-comment payloads are not left unchanged by
the spacing sub-passes.  Formatting `a = 1 // x,y` with the default options
does not keep the comment text `// x,y` anywhere in the output: operator
spacing splits the `//` marker and comma spacing rewrites the payload. -/
theorem claim_C3_counterexample :
    isSubstring "// x,y".toList
        (formattedText defaultOptions "a = 1 // x,y".toList) = false := by
  decide

/-- C3 (amended): the spacing sub-passes rewrite every chunk outside string
literals, trailing comments included — only string segments are exempt.  On
`a = 1 // x,y` with default options, operator spacing turns `//` into `/ /`
and comma spacing turns `x,y` into `x, y`, giving `a = 1 / / x, y`. -/
theorem claim_C3 :
    formattedText defaultOptions "a = 1 // x,y".toList
      = "a = 1 / / x, y\n".toList := by
  decide

/-- C4 counterexample: an options value supplying only `tabSize` and
`insertSpaces` does not behave like the documented defaults: on `a,b` it
reports no edit, while the default options report a comma-spacing edit. -/
theorem claim_C4_counterexample :
    provideFormattingEdits (some minimalOptions) "a,b".toList
      ≠ provideFormattingEdits (some defaultOptions) "a,b".toList := by
  decide

/-- C4 (amended): only `tabSize`, `insertSpaces`, `trimTrailingWhitespace`,
`normalizeEOL`, `maxConsecutiveBlankLines` and `braceStyle` are individually
defaulted; every other option is read by JavaScript truthiness, so when
absent its pass is disabled.  An options value supplying only `tabSize` and
`insertSpaces` is therefore equivalent, on every document, to explicitly
disabling operator, comma and colon spacing, quote normalization, both
alignment passes, comment wrapping and the final-newline handling.  The
documented defaults apply only when the options argument is entirely
absent. -/
theorem claim_C4 (t : List Char) :
    provideFormattingEdits (some minimalOptions) t
      = provideFormattingEdits (some minimalEquivalent) t := by
  show (if normalizedOriginal minimalOptions t = formattedText minimalOptions t
        then [] else [formattedText minimalOptions t])
      = (if normalizedOriginal minimalEquivalent t = formattedText minimalEquivalent t
        then [] else [formattedText minimalEquivalent t])
  rw [formattedText_minEq,
    show normalizedOriginal minimalOptions t = normalizedOriginal minimalEquivalent t from rfl]

/-- C5: the equals-alignment pass does not align on the very
scenario.  On `x = 1` / `longname = 2` with default options, the code pads
with `max 1 (col - width(untrimmed left))` in front of the trimmed left
part, which shifts the widest line one column right of the others: the
output is `x        = 1` (its `=` in column 9) and `longname  = 2` (its `=`
in column 10, two spaces after `longname`), not the claimed aligned
`longname = 2`. -/
theorem claim_C5 :
    formattedText defaultOptions "x = 1\nlongname = 2".toList
      = "x        = 1\nlongname  = 2\n".toList := by
  decide

/-- C6: `provideFormattingEdits` returns the empty edit list exactly when the
fully formatted text equals the original text split and rejoined under the
target EOL convention; otherwise the result is exactly one whole-document
replacement carrying the final text. -/
theorem claim_C6 (o : Option ExtraFormattingOptions) (t : List Char) :
    (provideFormattingEdits o t = []
      ↔ formattedText (o.getD defaultOptions) t = normalizedOriginal (o.getD defaultOptions) t)
    ∧ (provideFormattingEdits o t = []
      ∨ provideFormattingEdits o t = [formattedText (o.getD defaultOptions) t]) := by
  unfold provideFormattingEdits
  by_cases h : normalizedOriginal (o.getD defaultOptions) t
      = formattedText (o.getD defaultOptions) t
  · rw [if_pos h]
    exact ⟨⟨fun _ => h.symm, fun _ => rfl⟩, Or.inl rfl⟩
  · rw [if_neg h]
    exact ⟨⟨fun hc => absurd hc (by simp), fun he => absurd he.symm h⟩, Or.inr rfl⟩

/-- C7: the running bracket-depth counter is an unclamped integer updated
after each line by the net bracket delta of that line (first conjunct: the pass
equals rendering each line at the pre-line level; second conjunct: the level
update rule), it can go negative and later recover (third conjunct, on the
lines `)`, `x`, `(`, `y`), and clamping happens only where the
indentation is computed — the emitted line repeats the indent unit
`max 0 (level - preDec)` times, `preDec` being `1` iff the line starts with
a closing bracket (fourth conjunct). -/
theorem claim_C7 (opt : ExtraFormattingOptions) (src : List (List Char))
    (lvl : Int) (r : List Char) (rs : List (List Char)) :
    passIndentAndSpacing src opt
        = List.zipWith (processLine opt) (levelsFrom opt 0 src) src
    ∧ levelsFrom opt lvl (r :: rs)
        = lvl :: levelsFrom opt (lvl + lineDelta opt r) rs
    ∧ levelsFrom defaultOptions 0 [[')'], ['x'], ['('], ['y']] = [0, -1, -1, 0]
    ∧ processLine opt lvl r
        = postIndentPasses opt
            (applyIndentHeuristic
              (normalizeIndent r (opt.tabSize.getD 2) (opt.insertSpaces.getD true))
              (max 0 (lvl - preDecOf
                (normalizeIndent r (opt.tabSize.getD 2) (opt.insertSpaces.getD true))))
              (indentUnitOf opt)) :=
  ⟨passGo_eq_zipWith opt src 0, rfl, by decide, rfl⟩

/-- C8: the blank-run limiter emits at most `maxConsecutiveBlankLines` blank
lines per run (first conjunct), keeps every non-blank line and resets on it
(second conjunct: the non-blank sublists agree), and an input of 5
consecutive blank lines with the cap 2 comes out with exactly 2 blank lines
in that run, both for the pass alone and for the whole default-options
formatter. -/
theorem claim_C8 (ls : List (List Char)) (m : Nat) :
    runsLe m (limitBlankRuns ls m) = true
    ∧ (limitBlankRuns ls m).filter (fun l => !isBlank l)
        = ls.filter (fun l => !isBlank l)
    ∧ limitBlankRuns [['a'], [], [' '], [], [], [' ', '\t'], ['b']] 2
        = [['a'], [], [], ['b']]
    ∧ formattedText defaultOptions "a\n\n\n\n\n\nb".toList = "a\n\n\nb\n".toList :=
  ⟨lbrGo_runsLe m ls 0 0 le_rfl, lbrGo_filter m ls 0, by decide, by decide⟩

/-- C9: with a `double` target, a single-quoted literal whose parsed content
contains no `"` is re-emitted double-quoted with identical content (no new
escapes, since `escDq` is the identity there), and one whose content does
contain `"` is re-emitted completely unchanged; symmetrically for the
`single` target on double-quoted literals.  The content may contain
escape pairs (`okContent`); the surrounding code must contain no further
quote characters. -/
theorem claim_C9 (c1 r1 c2 r2 : List Char)
    (h1 : okContent '\'' c1 = true) (hr1 : noQuotes r1 = true)
    (h2 : okContent '"' c2 = true) (hr2 : noQuotes r2 = true) :
    normalizeQuotesInLine ('\'' :: c1 ++ '\'' :: r1) QuoteMode.double
        = (if c1.contains '"' then '\'' :: c1 ++ '\'' :: r1
           else '"' :: c1 ++ '"' :: r1)
    ∧ normalizeQuotesInLine ('"' :: c2 ++ '"' :: r2) QuoteMode.single
        = (if c2.contains '\'' then '"' :: c2 ++ '"' :: r2
           else '\'' :: c2 ++ '\'' :: r2) := by
  constructor
  · rw [normalizeQuotes_literal QuoteMode.double '\'' (Or.inr rfl) c1 r1 h1 hr1]
    by_cases hc : c1.contains '"' = true
    · rw [if_pos hc]
      unfold quoteConv
      rw [if_neg (fun h => h.2.2 hc), if_neg (fun h => absurd h.1 (by decide))]
      simp
    · rw [if_neg hc]
      unfold quoteConv
      rw [if_pos ⟨rfl, rfl, hc⟩, escDq_of_not_contains c1 (by simpa using hc)]
      simp
  · rw [normalizeQuotes_literal QuoteMode.single '"' (Or.inl rfl) c2 r2 h2 hr2]
    by_cases hc : c2.contains '\'' = true
    · rw [if_pos hc]
      unfold quoteConv
      rw [if_neg (fun h => absurd h.1 (by decide)), if_neg (fun h => h.2.2 hc)]
      simp
    · rw [if_neg hc]
      unfold quoteConv
      rw [if_neg (fun h => absurd h.1 (by decide)), if_pos ⟨rfl, rfl, hc⟩,
        escSq_of_not_contains c2 (by simpa using hc)]
      simp

/-- C9 witness: the theorem applied to a single-quoted literal whose content
is she said "hi" (it contains a double quote, so it stays single-quoted under
the `double` target) and to a double-quoted literal whose content is the four
characters i, t, single quote, s (it contains a single quote, so it stays
double-quoted under the `single` target). -/
theorem claim_C9_witness :
    okContent '\'' "she said \"hi\"".toList = true
    ∧ noQuotes [] = true
    ∧ okContent '"' ['i', 't', '\'', 's'] = true
    ∧ (normalizeQuotesInLine ('\'' :: "she said \"hi\"".toList ++ '\'' :: []) QuoteMode.double
          = (if ("she said \"hi\"".toList).contains '"' then
              '\'' :: "she said \"hi\"".toList ++ '\'' :: []
            else '"' :: "she said \"hi\"".toList ++ '"' :: [])
      ∧ normalizeQuotesInLine ('"' :: ['i', 't', '\'', 's'] ++ '"' :: []) QuoteMode.single
          = (if (['i', 't', '\'', 's'] : List Char).contains '\'' then
              '"' :: ['i', 't', '\'', 's'] ++ '"' :: []
            else '\'' :: ['i', 't', '\'', 's'] ++ '\'' :: [])) :=
  ⟨by decide, by decide, by decide,
    claim_C9 "she said \"hi\"".toList [] ['i', 't', '\'', 's'] []
      (by decide) (by decide) (by decide) (by decide)⟩

/-- C10: every blank line kept by the blank-run limiter is emitted as the
empty line: the output contains no whitespace-only non-empty line, whatever
`trimTrailingWhitespace` would have said. -/
theorem claim_C10 (ls : List (List Char)) (m : Nat) (l : List Char)
    (hmem : l ∈ limitBlankRuns ls m) (hbl : isBlank l = true) : l = [] :=
  lbrGo_blank_nil m ls 0 l hmem hbl

/-- C10 witness: the surviving blank line produced from the whitespace-only
input line consisting of a space and a tab is the empty line. -/
theorem claim_C10_witness :
    ([] ∈ limitBlankRuns [['a'], [' ', '\t']] 2) ∧ isBlank ([] : List Char) = true
    ∧ ([] : List Char) = [] :=
  ⟨by decide, by decide, claim_C10 [['a'], [' ', '\t']] 2 [] (by decide) (by decide)⟩
